import Mathlib

/-
Verification of the hybrid formula-inference core of an Excel MCP server.

The development shallowly embeds the relevant Python functions:
  * app/llm_service.py : _clean_json_response, _call_ollama_sync,
    _call_ollama_text, normalize_columns, generate_formula_from_intent
  * app/mcp_server.py  : the calculation-preview block of insert_excel_formula

Modelling conventions:
  * The external text-completion oracle (Ollama over HTTP) is a parameter
    `oracle : String -> Except String String`; `.error e` models any
    transport exception (timeout, connection failure, non-2xx status),
    `.ok t` a successful HTTP round-trip whose "response" field is `t`.
  * Python `str` is modelled as Lean `String`; character classes
    (whitespace, upper, digit) are modelled over ASCII, which covers every
    string the code itself constructs.
  * Python regular expressions are translated into explicit deterministic
    scanners whose semantics match the regex engine on the patterns used
    (all the patterns here backtrack trivially, as argued in the comments).
  * `json.loads` is modelled by an executable fuel-based JSON parser
    (integers instead of floats, `\uXXXX` without surrogate pairing);
    DataFrame columns are `List (Option Int)` (`none` models a null/NaN
    cell), a table is its list of columns.
-/

/-! ## Basic character and list helpers (Python string primitives) -/

/-- Python `\s` / `str.strip` whitespace class, ASCII part. -/
def isWsC (c : Char) : Bool :=
  c = ' ' || c = '\t' || c = '\n' || c = '\r' || c = '\x0b' || c = '\x0c'

/-- Python `str.strip()` on a character list. -/
def pyStrip (l : List Char) : List Char :=
  ((l.dropWhile isWsC).reverse.dropWhile isWsC).reverse

/-- Python `str.strip()`. -/
def pyStripStr (s : String) : String := String.mk (pyStrip s.toList)

/-- Python `str.lower()` on a character (ASCII range, which covers the
identifiers the code handles). -/
def pyLowerChar (c : Char) : Char :=
  if 'A' ≤ c && c ≤ 'Z' then Char.ofNat (c.toNat + 32) else c

/-- Python `str.lower()`. -/
def pyLower (s : String) : String := String.mk (s.toList.map pyLowerChar)

/-- Python `needle in hay` (contiguous substring) on character lists. -/
def containsSub (hay needle : List Char) : Bool :=
  match hay with
  | [] => needle.isEmpty
  | _ :: t => needle.isPrefixOf hay || containsSub t needle

/-- Python `needle in hay` on strings. -/
def strIn (needle hay : String) : Bool := containsSub hay.toList needle.toList

/-- Maximal munch of a character class: models a greedy regex `[class]*`
followed by a character outside the class (no backtracking can occur). -/
def spanP (p : Char → Bool) : List Char → List Char × List Char
  | [] => ([], [])
  | c :: cs =>
    if p c then
      let r := spanP p cs
      (c :: r.1, r.2)
    else ([], c :: cs)

/-! ## `_clean_json_response` (llm_service.py lines 11-30)

Rule 1 is `re.search(r"```(?:json)?\s*(\{.*?\})\s*```", response, re.DOTALL)`.
On this pattern the engine is deterministic at every choice point:
after the literal backticks, if the text continues with `json` then the
non-consuming alternative of `(?:json)?` dies at `\{` (`j` is neither
whitespace nor a brace), so the tag is stripped exactly when present;
`\s*` is maximal munch (a brace is not whitespace); `.*?` takes the
shortest extension after which `\}` then whitespace then three backticks
follow.  `re.search` tries start positions left to right. -/

/-- After the closing brace of the candidate group: `\s*` then three
backticks. -/
def ticksAfterWs (l : List Char) : Bool :=
  match l.dropWhile isWsC with
  | '`' :: '`' :: '`' :: _ => true
  | _ => false

/-- Lazy `.*?` body of rule 1: shortest prefix after which a `\x7d` is
followed by whitespace and a closing fence; returns that prefix. -/
def lazyBody : List Char → Option (List Char)
  | [] => none
  | c :: rest =>
    if c = '\x7d' && ticksAfterWs rest then some []
    else (lazyBody rest).map (c :: ·)

/-- Optional `json` tag right after the opening fence. -/
def stripJsonTag (l : List Char) : List Char :=
  match l with
  | 'j' :: 's' :: 'o' :: 'n' :: t => t
  | _ => l

/-- Rule-1 payload: after the optional tag and the whitespace, the text
must open a brace block whose lazy body closes (`lazyBody`). -/
def fencePayload (l : List Char) : Option (List Char) :=
  match l with
  | '\x7b' :: body => (lazyBody body).map (fun p => '\x7b' :: (p ++ ['\x7d']))
  | _ => none

/-- Rule-1 match attempt anchored at the current position. -/
def fenceAt (l : List Char) : Option (List Char) :=
  match l with
  | '`' :: '`' :: '`' :: r => fencePayload ((stripJsonTag r).dropWhile isWsC)
  | _ => none

/-- Leftmost rule-1 match (`re.search` scans start positions left to
right). -/
def searchFence : List Char → Option (List Char)
  | [] => none
  | c :: t => fenceAt (c :: t) <|> searchFence t

/-- Spec-level condition for rule 2: a closing brace occurs somewhere
after an opening brace. -/
def hasBracePair (l : List Char) : Prop :=
  ∃ pre mid post, l = pre ++ ('\x7b' :: (mid ++ ('\x7d' :: post)))

/-- Rule 2, `re.search(r"(\{.*\})", response, re.DOTALL)`: greedy `.*`
with backtracking captures from the first opening brace to the last
closing brace that occurs after it. -/
def looseBraces (l : List Char) : Option (List Char) :=
  match l.dropWhile (fun c => !(c = '\x7b')) with
  | [] => none
  | _ :: post =>
    match post.reverse.dropWhile (fun c => !(c = '\x7d')) with
    | [] => none
    | d :: tr => some ('\x7b' :: (d :: tr).reverse)

/-- Embeds `_clean_json_response` (llm_service.py lines 11-30).  Each captured
group is passed through `.strip()` exactly as in the source. -/
def clean_json_response (response : String) : String :=
  if response = "" then "\x7b\x7d"
  else
    match searchFence response.toList with
    | some g => String.mk (pyStrip g)
    | none =>
      match looseBraces response.toList with
      | some g => String.mk (pyStrip g)
      | none => String.mk (pyStrip response.toList)

/-! ## A model of `json.loads`

Executable fuel-based JSON parser.  Restrictions of the model (they only
shift some ill-formed oracle replies from the success branch to the
already-modelled failure branch, and cannot produce different resolved
columns): numbers are integers (no fraction/exponent), `\uXXXX` escapes
are decoded without surrogate pairing.  JSON whitespace is exactly
`" \t\n\r"` as in the Python decoder. -/

inductive Json where
  | null : Json
  | bool (b : Bool) : Json
  | num (n : Int) : Json
  | str (s : String) : Json
  | arr (elems : List Json) : Json
  | obj (members : List (String × Json)) : Json

def isJWs (c : Char) : Bool := c = ' ' || c = '\t' || c = '\n' || c = '\r'

def hexVal (c : Char) : Option Nat :=
  if '0' ≤ c && c ≤ '9' then some (c.toNat - 48)
  else if 'a' ≤ c && c ≤ 'f' then some (c.toNat - 87)
  else if 'A' ≤ c && c ≤ 'F' then some (c.toNat - 55)
  else none

/-- String body parser: everything after the opening quote, handling the
JSON escapes; rejects raw control characters as the strict decoder does. -/
def pStringAux : List Char → Option (List Char × List Char)
  | [] => none
  | '"' :: r => some ([], r)
  | '\\' :: e :: r =>
    match e with
    | '"' => (pStringAux r).map (fun p => ('"' :: p.1, p.2))
    | '\\' => (pStringAux r).map (fun p => ('\\' :: p.1, p.2))
    | '/' => (pStringAux r).map (fun p => ('/' :: p.1, p.2))
    | 'b' => (pStringAux r).map (fun p => ('\x08' :: p.1, p.2))
    | 'f' => (pStringAux r).map (fun p => ('\x0c' :: p.1, p.2))
    | 'n' => (pStringAux r).map (fun p => ('\n' :: p.1, p.2))
    | 'r' => (pStringAux r).map (fun p => ('\r' :: p.1, p.2))
    | 't' => (pStringAux r).map (fun p => ('\t' :: p.1, p.2))
    | 'u' =>
      match r with
      | h1 :: h2 :: h3 :: h4 :: r2 =>
        match hexVal h1, hexVal h2, hexVal h3, hexVal h4 with
        | some a, some b, some c, some d =>
          (pStringAux r2).map (fun p =>
            (Char.ofNat (((a * 16 + b) * 16 + c) * 16 + d) :: p.1, p.2))
        | _, _, _, _ => none
      | _ => none
    | _ => none
  | c :: r => if c.toNat < 32 then none else (pStringAux r).map (fun p => (c :: p.1, p.2))

def digitsToNat (ds : List Char) : Nat :=
  ds.foldl (fun a c => a * 10 + (c.toNat - 48)) 0

/-- Unsigned integer literal: `0 | [1-9][0-9]*`. -/
def pNat (l : List Char) : Option (Nat × List Char) :=
  match spanP Char.isDigit l with
  | ([], _) => none
  | (['0'], rest) => some (0, rest)
  | ('0' :: _ :: _, _) => none
  | (ds, rest) => some (digitsToNat ds, rest)

def pNum (l : List Char) : Option (Json × List Char) :=
  match l with
  | '-' :: r => (pNat r).map (fun p => (Json.num (-(p.1 : Int)), p.2))
  | _ => (pNat l).map (fun p => (Json.num (p.1 : Int), p.2))

/-- Object members from the first key on; consumes the closing brace. -/
def pMembers (pv : List Char → Option (Json × List Char)) :
    Nat → List Char → Option (List (String × Json) × List Char)
  | 0, _ => none
  | fuel + 1, l =>
    match l.dropWhile isJWs with
    | '"' :: r =>
      match pStringAux r with
      | none => none
      | some (k, r2) =>
        match r2.dropWhile isJWs with
        | ':' :: r3 =>
          match pv r3 with
          | none => none
          | some (v, r4) =>
            match r4.dropWhile isJWs with
            | ',' :: r5 =>
              (pMembers pv fuel r5).map (fun p => ((String.mk k, v) :: p.1, p.2))
            | '\x7d' :: r5 => some ([(String.mk k, v)], r5)
            | _ => none
        | _ => none
    | _ => none

/-- Array elements from the first element on; consumes the closing bracket. -/
def pElems (pv : List Char → Option (Json × List Char)) :
    Nat → List Char → Option (List Json × List Char)
  | 0, _ => none
  | fuel + 1, l =>
    match pv l with
    | none => none
    | some (v, r) =>
      match r.dropWhile isJWs with
      | ',' :: r2 => (pElems pv fuel r2).map (fun p => (v :: p.1, p.2))
      | ']' :: r2 => some ([v], r2)
      | _ => none

def pVal : Nat → List Char → Option (Json × List Char)
  | 0, _ => none
  | fuel + 1, l =>
    match l.dropWhile isJWs with
    | '\x7b' :: r =>
      match r.dropWhile isJWs with
      | '\x7d' :: r2 => some (Json.obj [], r2)
      | r2 => (pMembers (fun s => pVal fuel s) fuel r2).map (fun p => (Json.obj p.1, p.2))
    | '[' :: r =>
      match r.dropWhile isJWs with
      | ']' :: r2 => some (Json.arr [], r2)
      | r2 => (pElems (fun s => pVal fuel s) fuel r2).map (fun p => (Json.arr p.1, p.2))
    | '"' :: r => (pStringAux r).map (fun p => (Json.str (String.mk p.1), p.2))
    | 't' :: 'r' :: 'u' :: 'e' :: r => some (Json.bool true, r)
    | 'f' :: 'a' :: 'l' :: 's' :: 'e' :: r => some (Json.bool false, r)
    | 'n' :: 'u' :: 'l' :: 'l' :: r => some (Json.null, r)
    | l' => pNum l'

/-- Models `json.loads`: one value, then only trailing whitespace. -/
def jloads (s : String) : Option Json :=
  match pVal (s.length + 1) s.toList with
  | some (j, rest) => if rest.dropWhile isJWs = [] then some j else none
  | none => none

/-- Python dict lookup on the parsed members (later duplicate keys win). -/
def objGetLast (kvs : List (String × Json)) (k : String) : Option Json :=
  (kvs.reverse.find? (fun kv => kv.1 == k)).map (·.2)

/-- Python truthiness of a decoded JSON value. -/
def jTruthy : Json → Bool
  | .null => false
  | .bool b => b
  | .num n => !(n == 0)
  | .str s => !(s == "")
  | .arr xs => !xs.isEmpty
  | .obj kvs => !kvs.isEmpty

/-! ## `normalize_columns` (llm_service.py lines 60-106) -/

/-- Embeds `_call_ollama_sync` (lines 32-58): a successful exchange yields the
`response` field verbatim; every exception is logged and becomes `""`. -/
def call_ollama_sync (oracle : String → Except String String) (prompt : String) : String :=
  match oracle prompt with
  | .ok raw => raw
  | .error _ => ""

/-- Python dict comprehension `{c.lower(): c for c in schema}` (line 68):
on duplicate lowercased names the later entry wins. -/
def schema_map (schema : List String) : List (String × String) :=
  schema.map (fun c => (pyLower c, c))

def dictLookup (m : List (String × String)) (k : String) : Option String :=
  (m.reverse.find? (fun kv => kv.1 == k)).map (·.2)

/-- Deterministic pass (lines 73-77): the loop appends case-insensitive
matches to `normalized`; `filterMap` recovers exactly that list. -/
def detNorm (columns schema : List String) : List String :=
  columns.filterMap (fun col => dictLookup (schema_map schema) (pyLower col))

/-- Deterministic pass, the `unknowns` list of the same loop. -/
def detUnknown (columns schema : List String) : List String :=
  columns.filter (fun col => (dictLookup (schema_map schema) (pyLower col)).isNone)

/-- Minimal `json.dumps` string escaping (enough for the prompt text). -/
def jEscape (s : String) : String :=
  String.mk (s.toList.foldr
    (fun c acc => if c = '"' || c = '\\' then '\\' :: c :: acc else c :: acc) [])

def jdumpsList (xs : List String) : String :=
  "[" ++ String.intercalate ", " (xs.map (fun s => "\"" ++ jEscape s ++ "\"")) ++ "]"

/-- Prompt of lines 85-91. -/
def normPrompt (unknowns schema : List String) : String :=
  "You are a data normalizer. Map options to valid columns.\n" ++
  "Valid Columns: [" ++ String.intercalate ", " schema ++ "]\n" ++
  "Input Options: " ++ jdumpsList unknowns ++ "\n" ++
  "Return strictly JSON: \x7b\"mapping\": \x7b\"input_option\": \"Valid Column\"\x7d\x7d\n" ++
  "If no close match, map to null."

/-- One iteration of the mapping loop (lines 97-101):
`if mapping.get(u) and mapping[u] in schema: append(mapping[u]) else append(u)`.
A truthy value compares equal (Python `in` uses `==`) to a schema member
only when it is a nonempty string equal to that member. -/
def resolveUnknown (kvs : List (String × Json)) (schema : List String) (u : String) : String :=
  match objGetLast kvs u with
  | some v =>
    if jTruthy v then
      match v with
      | .str s => if s ∈ schema then s else u
      | _ => u
    else u
  | none => u

/-- Lines 94-104 after the parse: what gets appended behind `normalized`.
`json.loads` failing (`none`), a non-dict `json.loads` result, and a
non-dict `mapping` value all reach the `except` branch of line 102 (the
latter two through the `AttributeError` that `.get` raises before
anything is appended), which extends with the untouched `unknowns`;
otherwise the mapping loop of lines 97-101 runs. -/
def oraclePhase (j : Option Json) (unknowns schema : List String) : List String :=
  match j with
  | none => unknowns
  | some (Json.obj top) =>
    match (objGetLast top "mapping").getD (Json.obj []) with
    | Json.obj kvs => unknowns.map (resolveUnknown kvs schema)
    | _ => unknowns
  | some _ => unknowns

/-- Embeds `normalize_columns` (lines 60-106). -/
def normalize_columns (oracle : String → Except String String)
    (columns schema : List String) : List String :=
  if columns.isEmpty then []
  else
    let normalized := detNorm columns schema
    let unknowns := detUnknown columns schema
    if unknowns.isEmpty then normalized
    else
      let resp := call_ollama_sync oracle (normPrompt unknowns schema)
      normalized ++ oraclePhase (jloads (clean_json_response resp)) unknowns schema

/-! ## `generate_formula_from_intent` (llm_service.py lines 108-230) -/

/-- Python `str.upper()` (ASCII). -/
def pyUpperChar (c : Char) : Char :=
  if 'a' ≤ c && c ≤ 'z' then Char.ofNat (c.toNat - 32) else c

def pyUpper (s : String) : String := String.mk (s.toList.map pyUpperChar)

/-- Layer 1 of column resolution (lines 123-126): first schema member
whose lowercased name is a substring of the lowercased intent. -/
def columnPass1 (il : String) (schema : List String) : Option String :=
  schema.find? (fun col => strIn (pyLower col) il)

/-- Python `s.replace(" ", "")` (only the space character). -/
def removeSpaces (s : String) : String :=
  String.mk (s.toList.filter (fun c => !(c = ' ')))

/-- Layer 2 (lines 129-136): whitespace-stripped containment both ways. -/
def columnPass2 (il : String) (schema : List String) : Option String :=
  let ins := removeSpaces il
  schema.find? (fun col =>
    let cns := removeSpaces (pyLower col)
    strIn cns ins || strIn ins cns)

def isQuoteC (c : Char) : Bool := c = '\'' || c = '"'

/-- Layer 3 (lines 140-142): `re.search(r"['\"]([^'\"]+)['\"]", intent)`.
At a quote the engine takes the maximal nonempty run of non-quote
characters and requires a quote right after (backtracking cannot help,
as every given-back character is a non-quote); on failure the search
advances one position. -/
def scanQuoted : List Char → Option (List Char)
  | [] => none
  | c :: rest =>
    if isQuoteC c then
      match spanP (fun d => !(isQuoteC d)) rest with
      | (content, d :: _) =>
        if !content.isEmpty && isQuoteC d then some content else scanQuoted rest
      | (_, []) => scanQuoted rest
    else scanQuoted rest

/-- Python `str.split()` (whitespace runs, no empty words). -/
def splitWsAux : List Char → List Char → List String
  | [], acc => if acc.isEmpty then [] else [String.mk acc.reverse]
  | c :: r, acc =>
    if isWsC c then
      if acc.isEmpty then splitWsAux r [] else String.mk acc.reverse :: splitWsAux r []
    else splitWsAux r (c :: acc)

def pySplit (s : String) : List String := splitWsAux s.toList []

/-- Layer 4 (lines 144-149): the last word of the intent that begins
with an uppercase letter and is itself a schema member. -/
def lastCapWord (intent : String) (schema : List String) : Option String :=
  (pySplit intent).reverse.find? (fun w =>
    match w.toList with
    | c :: _ => c.isUpper && schema.contains w
    | [] => false)

/-- Python truthiness of the running `column_match` variable: both
`None` and the empty string are falsy, so the `if not column_match:`
guards of lines 129 and 138 re-run the later passes after an
empty-string match (possible when the schema contains `""`, which is a
substring of everything). -/
def cmTruthy : Option String → Bool
  | some s => !(s = "")
  | none => false

/-- Lines 120-149: layered column resolution (`column_match`).  Layers 1
and 2 run on the lowercased stripped intent, layers 3 and 4 on the
original intent; each later block is guarded by `if not column_match:`
(truthiness, not mere presence), and a block that finds nothing keeps
the variable's previous value, exactly as in the source. -/
def column_match (intent il : String) (schema : List String) : Option String :=
  let m1 := columnPass1 il schema
  let m2 :=
    if cmTruthy m1 then m1
    else
      match columnPass2 il schema with
      | some c => some c
      | none => m1
  if cmTruthy m2 then m2
  else
    match scanQuoted intent.toList with
    | some q => some (String.mk q)
    | none =>
      match lastCapWord intent schema with
      | some w => some w
      | none => m2

def keywordHit (il : String) (kws : List String) : Bool :=
  kws.any (fun k => strIn k il)

inductive Detected where
  | agg (name : String) : Detected
  | mul : Detected
  | div : Detected
deriving DecidableEq

/-- Lines 152-172: the ordered keyword chain (`if`/`elif`). -/
def detectOp (il : String) : Option Detected :=
  if keywordHit il ["mean", "average", "avg"] then some (.agg "AVERAGE")
  else if keywordHit il ["sum", "total", "add up"] then some (.agg "SUM")
  else if keywordHit il ["count", "number of", "how many"] then some (.agg "COUNT")
  else if keywordHit il ["max", "maximum", "highest", "largest"] then some (.agg "MAX")
  else if keywordHit il ["min", "minimum", "lowest", "smallest"] then some (.agg "MIN")
  else if keywordHit il ["multiply", "product", "*"] then some .mul
  else if keywordHit il ["divide", "ratio", "/"] then some .div
  else none

/-- Lines 166 and 170: `[c for c in schema if c.lower() in intent_lower]`. -/
def binaryCols (il : String) (schema : List String) : List String :=
  schema.filter (fun c => strIn (pyLower c) il)

/-- Models `chr(65 + col_index)` (line 179). -/
def colLetter (i : Nat) : String := String.mk [Char.ofNat (65 + i)]

/-- Python `list.index` (line 178); `none` models the caught ValueError. -/
def pyIndex (schema : List String) (c : String) : Option Nat :=
  match schema with
  | [] => none
  | s :: t => if s = c then some 0 else (pyIndex t c).map (· + 1)

inductive RuleOut where
  | formula (f : String) : RuleOut
  | fallthrough : RuleOut
deriving DecidableEq

/-- Lines 167-168 and 171-172: `f"={cols[0]}2{op}{cols[1]}2"` when at
least two schema columns occur in the intent, otherwise fall through. -/
def binarySynth (op : String) (cols : List String) : RuleOut :=
  match cols with
  | c1 :: c2 :: _ => .formula ("=" ++ c1 ++ "2" ++ op ++ c2 ++ "2")
  | _ => .fallthrough

/-- Line 179-181: the formula once `schema.index` has been resolved. -/
def aggSynthIdx (F : String) (idx : Option Nat) : RuleOut :=
  match idx with
  | some i => .formula ("=" ++ F ++ "(" ++ colLetter i ++ "2:" ++ colLetter i ++ "100)")
  | none => .fallthrough

/-- Lines 175-183: the gate of line 175 is
`if function_name and column_match:` — Python TRUTHINESS, so an
empty-string match falls through to the LLM fallback exactly like an
absent one; otherwise `=F(L2:L100)` with `L = chr(65 + schema.index(cm))`
and a ValueError from `schema.index` is caught (`.fallthrough`). -/
def aggSynth (F : String) (cmOpt : Option String) (schema : List String) : RuleOut :=
  match cmOpt with
  | some cm => if cm = "" then .fallthrough else aggSynthIdx F (pyIndex schema cm)
  | none => .fallthrough

/-- Lines 114-183: the deterministic (rule-based) part of
`generate_formula_from_intent`.  `.formula f` models an early `return f`;
`.fallthrough` models reaching line 185, where the LLM fallback begins
(so `.fallthrough` is exactly "an oracle call is made"). -/
def ruleBased (intent : String) (schema : List String) : RuleOut :=
  let il := pyStripStr (pyLower intent)
  match detectOp il with
  | some .mul => binarySynth "*" (binaryCols il schema)
  | some .div => binarySynth "/" (binaryCols il schema)
  | some (.agg f) => aggSynth f (column_match intent il schema) schema
  | none => .fallthrough

/-- Embeds `_call_ollama_text` (lines 293-315): success yields the stripped
`response` field; any exception becomes the `"Error connecting to AI:"`
marker string (it is NOT converted to an empty string). -/
def call_ollama_text (oracle : String → Except String String) (prompt : String) : String :=
  match oracle prompt with
  | .ok t => pyStripStr t
  | .error exc => "Error connecting to AI: " ++ exc

/-- Prompt of lines 189-198. -/
def fallbackPrompt (intent : String) (schema : List String) (cell : String) : String :=
  "You are an Excel Expert. Create an Excel formula for cell " ++ cell ++ ".\n" ++
  "Columns: [" ++ String.intercalate ", " schema ++ "]\n" ++
  "User Intent: " ++ intent ++ "\n\n" ++
  "Rules:\n" ++
  "1. Return ONLY the formula text starting with =.\n" ++
  "2. Do NOT explain.\n" ++
  "3. Do NOT use markdown.\n" ++
  "Example: =AVERAGE(C2:C100)"

/-- Text after the first `` ``` ``, if any (the start of Python
`cleaned.split("```")[1]`). -/
def breakOnTicks : List Char → Option (List Char)
  | '`' :: '`' :: '`' :: r => some r
  | _ :: t => breakOnTicks t
  | [] => none

/-- Text up to the next `` ``` `` (the end of `split("```")[1]`). -/
def upToTicks : List Char → List Char
  | '`' :: '`' :: '`' :: _ => []
  | c :: t => c :: upToTicks t
  | [] => []

/-- Models `cleaned.split("\n", 1)[1]`; `none` models the IndexError raised when
there is no newline. -/
def afterNewline : List Char → Option (List Char)
  | [] => none
  | '\n' :: t => some t
  | _ :: t => afterNewline t

/-- Lines 207-212: strip one fenced block and an optional language tag.
`.error` is the uncaught IndexError of line 212. -/
def fenceStage (cleaned : List Char) : Except String (List Char) :=
  match breakOnTicks cleaned with
  | none => .ok cleaned
  | some r =>
    let part1 := upToTicks r
    if ['e', 'x', 'c', 'e', 'l'].isPrefixOf part1 || ['v', 'b'].isPrefixOf part1 then
      match afterNewline part1 with
      | some rest => .ok rest
      | none => .error "IndexError: list index out of range"
    else .ok part1

def isWordC (c : Char) : Bool :=
  ('A' ≤ c && c ≤ 'Z') || ('a' ≤ c && c ≤ 'z') || ('0' ≤ c && c ≤ '9') || c = '_'

def lineOf (l : List Char) : List Char := l.takeWhile (fun c => !(c = '\n'))

/-- Greedy `[^\n]+[\)\]]`: longest prefix of the current line that ends
at a closer with at least one character before it. -/
def closeBody (l : List Char) : Option (List Char) :=
  match (lineOf l).reverse.dropWhile (fun c => !(c = ')' || c = ']')) with
  | [] => none
  | d :: tr => if tr.isEmpty then none else some (d :: tr).reverse

/-- First alternative of the line-217 regex, anchored:
`=[A-Z0-9_]+[\(\[][^\n]+[\)\]]` with IGNORECASE. -/
def alt1At (l : List Char) : Option (List Char) :=
  match l with
  | '=' :: r =>
    match spanP isWordC r with
    | ([], _) => none
    | (w, b :: r2) =>
      if b = '(' || b = '[' then (closeBody r2).map (fun body => '=' :: (w ++ b :: body))
      else none
    | (_, []) => none
  | _ => none

/-- Second alternative, anchored: `=[A-Z0-9_]+\s*[\+\-\*/]\s*[A-Z0-9_]+`. -/
def alt2At (l : List Char) : Option (List Char) :=
  match l with
  | '=' :: r =>
    match spanP isWordC r with
    | ([], _) => none
    | (w1, r1) =>
      match spanP isWsC r1 with
      | (ws1, o :: r3) =>
        if o = '+' || o = '-' || o = '*' || o = '/' then
          match spanP isWsC r3 with
          | (ws2, r4) =>
            match spanP isWordC r4 with
            | ([], _) => none
            | (w2, _) => some ('=' :: (w1 ++ ws1 ++ o :: (ws2 ++ w2)))
        else none
      | (_, []) => none
  | _ => none

/-- Implements `re.search` for the line-217 regex: leftmost position, first
alternative preferred. -/
def formulaSearch : List Char → Option (List Char)
  | [] => none
  | c :: t => alt1At (c :: t) <|> alt2At (c :: t) <|> formulaSearch t

/-- Greedy `[^\n]+\)` for the line-221 regex. -/
def closeParenB (l : List Char) : Option (List Char) :=
  match (lineOf l).reverse.dropWhile (fun c => !(c = ')')) with
  | [] => none
  | d :: tr => if tr.isEmpty then none else some (d :: tr).reverse

/-- Line-221 regex, anchored: `[A-Z0-9_]+\([^\n]+\)` with IGNORECASE. -/
def noEqAt (l : List Char) : Option (List Char) :=
  match spanP isWordC l with
  | ([], _) => none
  | (w, '(' :: r2) => (closeParenB r2).map (fun body => w ++ '(' :: body)
  | (_, _) => none

def noEqSearch : List Char → Option (List Char)
  | [] => none
  | c :: t => noEqAt (c :: t) <|> noEqSearch t

/-- Lines 185-230: the LLM fallback synthesizer.  The `Except` layer
carries the single uncaught exception (see `fenceStage`); `.ok none` is
the terminal "no formula" outcome. -/
def llmFallback (oracle : String → Except String String)
    (intent : String) (schema : List String) (cell : String) :
    Except String (Option String) :=
  let resp := call_ollama_text oracle (fallbackPrompt intent schema cell)
  if resp = "" || strIn "Error connecting" resp then .ok none
  else
    match fenceStage (pyStrip resp.toList) with
    | .error e => .error e
    | .ok cl0 =>
      let cl := pyStrip cl0
      match formulaSearch cl with
      | some g => .ok (some (String.mk (pyStrip g)))
      | none =>
        match noEqSearch cl with
        | some g =>
          let found := String.mk (pyStrip g)
          if ["SUM", "AVG", "AVERAGE", "COUNT", "MIN", "MAX"].any
              (fun x => strIn x (pyUpper found)) then
            .ok (some ("=" ++ found))
          else if cl.head? = some '=' then .ok (some (String.mk cl)) else .ok none
        | none => if cl.head? = some '=' then .ok (some (String.mk cl)) else .ok none

/-- Embeds `generate_formula_from_intent` (lines 108-230). -/
def generate_formula_from_intent (oracle : String → Except String String)
    (intent : String) (schema : List String) (cell : String) :
    Except String (Option String) :=
  match ruleBased intent schema with
  | .formula f => .ok (some f)
  | .fallthrough => llmFallback oracle intent schema cell

/-! ## Calculation preview of `insert_excel_formula` (mcp_server.py lines 141-203)

The DataFrame is modelled by its list of columns; a cell is `none` for a
null/NaN entry and `some n` for a numeric value (exact integers stand in
for the numeric dtypes; the float results of `mean` are exact rationals).
The preview block runs after a successful insertion and its `try` wraps
everything, so the only formula-driven exception, the `ord()` TypeError
on a multi-letter column group, surfaces as an `"Error: ..."` string. -/

abbrev Table := List (List (Option Int))

def isUpperAZ (c : Char) : Bool := 'A' ≤ c && c ≤ 'Z'

def isDigitC (c : Char) : Bool := '0' ≤ c && c ≤ '9'

structure AggMatch where
  func : List Char
  letter1 : List Char
  digits1 : List Char
  letter2 : List Char
  digits2 : List Char
deriving DecidableEq

/-- Stage 5 of the line-153 regex: `(\d+)\)` (trailing text allowed, as
`re.match` does not anchor the end). -/
def pA5 (f l1 d1 l2 : List Char) : List Char × List Char → Option AggMatch
  | (c :: dr, ')' :: _) => some ⟨f, l1, d1, l2, c :: dr⟩
  | _ => none

/-- Stage 4: `([A-Z]+)` then the digits-and-closer stage. -/
def pA4 (f l1 d1 : List Char) : List Char × List Char → Option AggMatch
  | (c :: lr, r5) => pA5 f l1 d1 (c :: lr) (spanP isDigitC r5)
  | ([], _) => none

/-- Stage 3: `(\d+):` then the second letter group. -/
def pA3 (f l1 : List Char) : List Char × List Char → Option AggMatch
  | (c :: dr, ':' :: r4) => pA4 f l1 (c :: dr) (spanP isUpperAZ r4)
  | _ => none

/-- Stage 2: `([A-Z]+)` then the first digit group. -/
def pA2 (f : List Char) : List Char × List Char → Option AggMatch
  | (c :: lr, r3) => pA3 f (c :: lr) (spanP isDigitC r3)
  | ([], _) => none

/-- Stage 1: `([A-Z]+)\(` then the column letter group. -/
def pA1 : List Char × List Char → Option AggMatch
  | (c :: fr, '(' :: r2) => pA2 (c :: fr) (spanP isUpperAZ r2)
  | _ => none

/-- Implements `re.match(r'=([A-Z]+)\(([A-Z]+)(\d+):([A-Z]+)(\d+)\)', formula)`
(line 153): anchored at the start, trailing text allowed, and every
greedy class is maximal munch because each boundary character lies
outside the class before it; the stages `pA1`..`pA5` are the successive
pattern pieces. -/
def parseAgg (l : List Char) : Option AggMatch :=
  match l with
  | '=' :: r => pA1 (spanP isUpperAZ r)
  | _ => none

/-- Result of a pandas scalar reduction; `.nanV` models the NaN produced
by mean/max/min on an empty or all-null column.  The float produced by
`mean` is carried exactly as the fraction `num / den` (with `den` the
non-null count, so `den > 0` whenever this constructor is produced). -/
inductive PRes where
  | int (n : Int) : PRes
  | mean (num : Int) (den : Nat) : PRes
  | nanV : PRes
deriving DecidableEq

/-- The non-null entries of a column (pandas reductions skip NaN). -/
def nonNull (col : List (Option Int)) : List Int := col.filterMap id

def pMean (col : List (Option Int)) : PRes :=
  match nonNull col with
  | [] => .nanV
  | xs => .mean xs.sum xs.length

def pSum (col : List (Option Int)) : PRes := .int (nonNull col).sum

def pCount (col : List (Option Int)) : PRes := .int ((nonNull col).length : Int)

def pMax (col : List (Option Int)) : PRes :=
  match nonNull col with
  | [] => .nanV
  | x :: xs => .int (xs.foldl max x)

def pMin (col : List (Option Int)) : PRes :=
  match nonNull col with
  | [] => .nanV
  | x :: xs => .int (xs.foldl min x)

/-- Lines 166-177: dispatch on the parsed function name; `none` models
`result = None` for an unrecognized name. -/
def applyFunc (f : String) (col : List (Option Int)) : Option PRes :=
  if f = "AVERAGE" then some (pMean col)
  else if f = "SUM" then some (pSum col)
  else if f = "COUNT" then some (pCount col)
  else if f = "MAX" then some (pMax col)
  else if f = "MIN" then some (pMin col)
  else none

/-- Decimal digits of a natural number, most significant first. -/
def natDigitsAux : Nat → Nat → List Char
  | 0, _ => []
  | _ + 1, 0 => []
  | fuel + 1, n => natDigitsAux fuel (n / 10) ++ [Char.ofNat (48 + n % 10)]

def natDigits (n : Nat) : List Char :=
  if n = 0 then ['0'] else natDigitsAux (n + 1) n

/-- Thousands grouping on a reversed digit list. -/
def commasRev : List Char → List Char
  | d1 :: d2 :: d3 :: d4 :: t => d1 :: d2 :: d3 :: ',' :: commasRev (d4 :: t)
  | l => l

def groupDigits (n : Nat) : String :=
  String.mk (commasRev (natDigits n).reverse).reverse

/-- Models `f"{result:,}"` (line 185) for an integer result. -/
def fmtIntG (n : Int) : String :=
  if n < 0 then "-" ++ groupDigits n.natAbs else groupDigits n.natAbs

/-- Round `num / den` to centesimals, ties to even, modelling the `.2f`
rounding of the mean value (`den > 0`). -/
def roundHalfEven2 (num : Int) (den : Nat) : Int :=
  let s := 100 * num
  let f := Int.fdiv s den
  let rem := s - f * den
  if 2 * rem < (den : Int) then f
  else if (den : Int) < 2 * rem then f + 1
  else if f % 2 = 0 then f else f + 1

/-- Models `f"{result:,.2f}"` (line 183) for the float (mean) result. -/
def fmtMean (num : Int) (den : Nat) : String :=
  let n := roundHalfEven2 num den
  let sign := if n < 0 then "-" else ""
  let m := n.natAbs
  sign ++ groupDigits (m / 100) ++ "." ++
    String.mk [Char.ofNat (48 + (m % 100) / 10), Char.ofNat (48 + m % 10)]

/-- Lines 179-187: render the reduction result. -/
def fmt : PRes → String
  | .int n => fmtIntG n
  | .mean num den => fmtMean num den
  | .nanV => "nan"

/-- Python `ord()` error text for a multi-character string, as caught and
rendered by lines 193-195. -/
def ordErrMsg (k : Nat) : String :=
  "Error: ord() expected a character, but string of length " ++
    String.mk (natDigits k) ++ " found"

/-- Lines 159-187 for a single-letter column group: `ord` succeeds,
`col_index = ord(letter) - ord('A')`, and the reduction result is
rendered when the index is in range and the function is known
(`if result is not None`). -/
def calcLetter (func : List Char) (c : Char) (df : Table) : Option String :=
  if c.toNat - 65 < df.length then
    match applyFunc (String.mk func) (df.getD (c.toNat - 65) []) with
    | some r => some (fmt r)
    | none => none
  else none

/-- Lines 157-187 once the regex matched: dispatch on the length of the
column letter group (`ord()` raises on length ≠ 1, caught at line 193). -/
def calcAgg (func letter1 : List Char) (df : Table) : Option String :=
  match letter1 with
  | [] => some (ordErrMsg 0)
  | [c] => calcLetter func c df
  | c1 :: c2 :: r => some (ordErrMsg (c1 :: c2 :: r).length)

/-- Lines 141-195: the `calculated_value` computed after a successful
insertion.  `none` is Python `None` (the preview is absent from the
response in that case). -/
def calcPreview (formula : String) (df : Table) : Option String :=
  match parseAgg formula.toList with
  | some m => calcAgg m.func m.letter1 df
  | none =>
    if strIn "*" formula || strIn "/" formula then
      some "Formula inserted (calculation requires specific row)"
    else none

/-! ## Helper lemmas -/

theorem mem_of_mem_dropWhile {α} {p : α → Bool} {c : α} :
    ∀ {l : List α}, c ∈ l.dropWhile p → c ∈ l := by
  intro l h
  induction l with
  | nil => simp at h
  | cons a t ih =>
    rw [List.dropWhile_cons] at h
    split at h
    · exact List.mem_cons_of_mem a (ih h)
    · exact h

theorem dropWhile_append_all {α} {p : α → Bool} {l1 l2 : List α}
    (h : ∀ x ∈ l1, p x = true) : (l1 ++ l2).dropWhile p = l2.dropWhile p := by
  induction l1 with
  | nil => rfl
  | cons a t ih =>
    rw [List.cons_append, List.dropWhile_cons, if_pos (h a (List.mem_cons_self a t))]
    exact ih (fun x hx => h x (List.mem_cons_of_mem a hx))

theorem dropWhile_eq_nil_all {α} {p : α → Bool} {l : List α}
    (h : ∀ x ∈ l, p x = true) : l.dropWhile p = [] := by
  induction l with
  | nil => rfl
  | cons a t ih =>
    rw [List.dropWhile_cons, if_pos (h a (List.mem_cons_self a t))]
    exact ih (fun x hx => h x (List.mem_cons_of_mem a hx))

theorem stripJsonTag_mem {c : Char} {l : List Char} (h : c ∈ stripJsonTag l) : c ∈ l := by
  unfold stripJsonTag at h
  split at h
  · exact List.mem_cons_of_mem _ (List.mem_cons_of_mem _
      (List.mem_cons_of_mem _ (List.mem_cons_of_mem _ h)))
  · exact h

theorem fenceAt_mem_brace {l g : List Char} (h : fenceAt l = some g) : '\x7b' ∈ l := by
  unfold fenceAt at h
  split at h
  · next r =>
    unfold fencePayload at h
    split at h
    · next body heq =>
      have h1 : '\x7b' ∈ (stripJsonTag r).dropWhile isWsC := by
        rw [heq]; exact List.mem_cons_self _ _
      have h2 : '\x7b' ∈ r := stripJsonTag_mem (mem_of_mem_dropWhile h1)
      exact List.mem_cons_of_mem _ (List.mem_cons_of_mem _ (List.mem_cons_of_mem _ h2))
    · exact absurd h (by simp)
  · exact absurd h (by simp)

theorem fenceAt_mem_tick {l g : List Char} (h : fenceAt l = some g) : '`' ∈ l := by
  unfold fenceAt at h
  split at h
  · exact List.mem_cons_self _ _
  · exact absurd h (by simp)

theorem searchFence_mem_brace :
    ∀ {l g : List Char}, searchFence l = some g → '\x7b' ∈ l := by
  intro l
  induction l with
  | nil => intro g h; simp [searchFence] at h
  | cons a t ih =>
    intro g h
    rw [searchFence] at h
    cases hf : fenceAt (a :: t) with
    | some g2 => exact fenceAt_mem_brace hf
    | none =>
      rw [hf] at h
      simp only [Option.none_orElse] at h
      exact List.mem_cons_of_mem a (ih h)

theorem searchFence_mem_tick :
    ∀ {l g : List Char}, searchFence l = some g → '`' ∈ l := by
  intro l
  induction l with
  | nil => intro g h; simp [searchFence] at h
  | cons a t ih =>
    intro g h
    rw [searchFence] at h
    cases hf : fenceAt (a :: t) with
    | some g2 => exact fenceAt_mem_tick hf
    | none =>
      rw [hf] at h
      simp only [Option.none_orElse] at h
      exact List.mem_cons_of_mem a (ih h)

theorem looseBraces_none {l : List Char} (h : '\x7b' ∉ l) : looseBraces l = none := by
  have hall : ∀ x ∈ l, (fun c => !(c = '\x7b')) x = true := by
    intro x hx
    simp only [Bool.not_eq_true', decide_eq_false_iff_not]
    exact fun heq => h (heq ▸ hx)
  unfold looseBraces
  rw [dropWhile_eq_nil_all hall]

theorem pyStrip_brace (mid : List Char) :
    pyStrip ('\x7b' :: (mid ++ ['\x7d'])) = '\x7b' :: (mid ++ ['\x7d']) := by
  unfold pyStrip
  rw [show ('\x7b' :: (mid ++ ['\x7d'])).dropWhile isWsC = '\x7b' :: (mid ++ ['\x7d']) by
    rw [List.dropWhile_cons]
    rw [show isWsC '\x7b' = false from rfl]
    simp]
  rw [show ('\x7b' :: (mid ++ ['\x7d'])).reverse = '\x7d' :: (mid.reverse ++ ['\x7b']) by
    simp]
  rw [List.dropWhile_cons]
  rw [show isWsC '\x7d' = false from rfl]
  simp

theorem all_ne_of_not_mem {a : Char} {l : List Char} (h : a ∉ l) :
    ∀ x ∈ l, (fun c => !(c = a)) x = true := by
  intro x hx
  simp only [Bool.not_eq_true', decide_eq_false_iff_not]
  exact fun heq => h (heq ▸ hx)

theorem looseBraces_decomp (pre mid post : List Char)
    (hpre : '\x7b' ∉ pre) (hpost : '\x7d' ∉ post) :
    looseBraces (pre ++ ('\x7b' :: (mid ++ ('\x7d' :: post))))
      = some ('\x7b' :: (mid ++ ['\x7d'])) := by
  have h1 : List.dropWhile (fun c => !(c = '\x7b'))
      (pre ++ ('\x7b' :: (mid ++ ('\x7d' :: post))))
      = '\x7b' :: (mid ++ ('\x7d' :: post)) := by
    rw [dropWhile_append_all (all_ne_of_not_mem hpre), List.dropWhile_cons,
      show (!decide ('\x7b' = '\x7b')) = false from rfl]
    simp
  have h2 : List.dropWhile (fun c => !(c = '\x7d')) (post.reverse ++ ('\x7d' :: mid.reverse))
      = '\x7d' :: mid.reverse := by
    rw [dropWhile_append_all (all_ne_of_not_mem (by simpa using hpost)),
      List.dropWhile_cons,
      show (!decide ('\x7d' = '\x7d')) = false from rfl]
    simp
  unfold looseBraces
  rw [h1]
  simp [h2]

theorem searchFence_append {pre : List Char} (l : List Char) (h : '`' ∉ pre) :
    searchFence (pre ++ l) = searchFence l := by
  induction pre with
  | nil => rfl
  | cons c t ih =>
    have hc : c ≠ '`' := fun heq => h (heq ▸ List.mem_cons_self c t)
    rw [List.cons_append, searchFence]
    have hfc : fenceAt (c :: (t ++ l)) = none := by
      unfold fenceAt
      split
      · rename_i r heq
        injection heq with h1 _
        exact absurd h1 hc
      · rfl
    rw [hfc, Option.none_orElse]
    exact ih (fun hm => h (List.mem_cons_of_mem c hm))

theorem stripJsonTag_not_j {l : List Char} (h : ∀ c, l.head? = some c → c ≠ 'j') :
    stripJsonTag l = l := by
  unfold stripJsonTag
  split
  · exact absurd rfl (h 'j' rfl)
  · rfl

theorem head_not_j {ws1 M : List Char} (hws : ∀ c ∈ ws1, isWsC c = true) :
    ∀ c, ((ws1 ++ ('\x7b' :: M)).head? = some c) → c ≠ 'j' := by
  intro c hc
  cases ws1 with
  | nil =>
    rw [List.nil_append, List.head?_cons] at hc
    injection hc with h1
    rw [← h1]
    decide
  | cons w wt =>
    rw [List.cons_append, List.head?_cons] at hc
    injection hc with h1
    have hw := hws w (List.mem_cons_self w wt)
    rw [← h1]
    intro heq
    rw [heq] at hw
    exact absurd hw (by decide)

theorem lazyBody_exact (ws2 post : List Char) (hws : ∀ c ∈ ws2, isWsC c = true) :
    ∀ mid : List Char, '\x7d' ∉ mid →
      lazyBody (mid ++ ('\x7d' :: (ws2 ++ ('`' :: '`' :: '`' :: post)))) = some mid := by
  have ht : ticksAfterWs (ws2 ++ ('`' :: '`' :: '`' :: post)) = true := by
    unfold ticksAfterWs
    rw [dropWhile_append_all hws, List.dropWhile_cons,
      show isWsC '`' = false from rfl]
    simp
  intro mid
  induction mid with
  | nil =>
    intro _
    rw [List.nil_append, lazyBody]
    simp [ht]
  | cons m mt ih =>
    intro hmid
    have hm : (decide (m = '\x7d')
        && ticksAfterWs (mt ++ ('\x7d' :: (ws2 ++ ('`' :: '`' :: '`' :: post))))) = false := by
      have hne : m ≠ '\x7d' := fun heq => hmid (heq ▸ List.mem_cons_self m mt)
      simp [hne]
    rw [List.cons_append, lazyBody, hm]
    simp only [Bool.false_eq_true, if_false]
    rw [ih (fun hmm => hmid (List.mem_cons_of_mem m hmm))]
    rfl

/-- Rule 1 in full generality: a fence preceded by no backtick, wrapping
(after an optional `json` tag and whitespace) a brace block whose closing
brace is followed by whitespace and a closing fence, extracts exactly
that block.  The side conditions pin the regex's leftmost-shortest
choice: nothing before the fence can start a match, and the block's
first closing brace is the one the closure follows. -/
theorem fence_extract (s : String) (pre tag ws1 mid ws2 post : List Char)
    (hdec : s.toList = pre ++ ('`' :: '`' :: '`' ::
      (tag ++ (ws1 ++ ('\x7b' :: (mid ++ ('\x7d' :: (ws2 ++ ('`' :: '`' :: '`' :: post)))))))))
    (hpre : '`' ∉ pre)
    (htag : tag = [] ∨ tag = ['j', 's', 'o', 'n'])
    (hws1 : ∀ c ∈ ws1, isWsC c = true)
    (hws2 : ∀ c ∈ ws2, isWsC c = true)
    (hmid : '\x7d' ∉ mid) :
    clean_json_response s = String.mk ('\x7b' :: (mid ++ ['\x7d'])) := by
  have hne : s ≠ "" := by
    intro h
    rw [h] at hdec
    simp at hdec
  have hstrip : stripJsonTag
      (tag ++ (ws1 ++ ('\x7b' :: (mid ++ ('\x7d' :: (ws2 ++ ('`' :: '`' :: '`' :: post)))))))
      = ws1 ++ ('\x7b' :: (mid ++ ('\x7d' :: (ws2 ++ ('`' :: '`' :: '`' :: post))))) := by
    rcases htag with rfl | rfl
    · rw [List.nil_append]
      exact stripJsonTag_not_j (head_not_j hws1)
    · rfl
  have hdw : (stripJsonTag
      (tag ++ (ws1 ++ ('\x7b' :: (mid ++ ('\x7d' :: (ws2 ++ ('`' :: '`' :: '`' :: post)))))))).dropWhile isWsC
      = '\x7b' :: (mid ++ ('\x7d' :: (ws2 ++ ('`' :: '`' :: '`' :: post)))) := by
    rw [hstrip, dropWhile_append_all hws1, List.dropWhile_cons,
      show isWsC '\x7b' = false from rfl]
    simp
  have hfence : fenceAt ('`' :: '`' :: '`' ::
      (tag ++ (ws1 ++ ('\x7b' :: (mid ++ ('\x7d' :: (ws2 ++ ('`' :: '`' :: '`' :: post))))))))
      = some ('\x7b' :: (mid ++ ['\x7d'])) := by
    simp only [fenceAt]
    rw [hdw]
    simp only [fencePayload]
    rw [lazyBody_exact ws2 post hws2 mid hmid]
    rfl
  have hsearch : searchFence s.toList = some ('\x7b' :: (mid ++ ['\x7d'])) := by
    rw [hdec, searchFence_append _ hpre, searchFence, hfence]
    rfl
  unfold clean_json_response
  rw [if_neg hne, hsearch]
  show String.mk (pyStrip ('\x7b' :: (mid ++ ['\x7d']))) = _
  rw [pyStrip_brace]

theorem dropWhile_head_not {p : Char → Bool} {c : Char} {r : List Char} :
    ∀ {l : List Char}, l.dropWhile p = c :: r → p c = false := by
  intro l h
  induction l with
  | nil => simp at h
  | cons a t ih =>
    rw [List.dropWhile_cons] at h
    split at h
    · exact ih h
    · rename_i hpa
      injection h with h1 _
      rw [h1, Bool.not_eq_true] at hpa
      exact hpa

theorem lastOcc {α} {a : α} : ∀ {X : List α}, a ∈ X →
    ∃ mid post, X = mid ++ (a :: post) ∧ a ∉ post := by
  intro X h
  induction X with
  | nil => simp at h
  | cons x xs ih =>
    by_cases hx : a ∈ xs
    · obtain ⟨mid, post, heq, hpost⟩ := ih hx
      exact ⟨x :: mid, post, by rw [heq, List.cons_append], hpost⟩
    · rcases List.mem_cons.mp h with rfl | h2
      · exact ⟨[], xs, rfl, hx⟩
      · exact absurd h2 hx

/-- Every input containing a brace pair decomposes canonically: nothing
before the first opening brace, nothing after the last closing brace. -/
theorem canonical_pair : ∀ {l : List Char}, hasBracePair l →
    ∃ pre mid post, l = pre ++ ('\x7b' :: (mid ++ ('\x7d' :: post))) ∧
      '\x7b' ∉ pre ∧ '\x7d' ∉ post := by
  intro l h
  obtain ⟨p, m, q, rfl⟩ := h
  induction p with
  | nil =>
    have hm : '\x7d' ∈ m ++ ('\x7d' :: q) := by simp
    obtain ⟨mid, post, heq, hpost⟩ := lastOcc hm
    refine ⟨[], mid, post, ?_, by simp, hpost⟩
    rw [List.nil_append, List.nil_append, heq]
  | cons c p' ih =>
    by_cases hc : c = '\x7b'
    · subst hc
      have hm : '\x7d' ∈ p' ++ ('\x7b' :: (m ++ ('\x7d' :: q))) := by simp
      obtain ⟨mid, post, heq, hpost⟩ := lastOcc hm
      refine ⟨[], mid, post, ?_, by simp, hpost⟩
      rw [List.nil_append, List.cons_append, heq]
    · obtain ⟨pre, mid, post, heq, hpre, hpost⟩ := ih
      refine ⟨c :: pre, mid, post, ?_, ?_, hpost⟩
      · rw [List.cons_append, heq, List.cons_append]
      · intro hmem
        rcases List.mem_cons.mp hmem with h1 | h2
        · exact hc h1.symm
        · exact hpre h2

theorem looseBraces_some_pair {l g : List Char} (h : looseBraces l = some g) :
    hasBracePair l := by
  unfold looseBraces at h
  split at h
  · simp at h
  · rename_i c0 post1 heq
    split at h
    · simp at h
    · rename_i d tr heq2
      have hc0 : c0 = '\x7b' := by
        have hh := dropWhile_head_not heq
        simp only [Bool.not_eq_false', decide_eq_true_eq] at hh
        exact hh
      have hd : d = '\x7d' := by
        have hh := dropWhile_head_not heq2
        simp only [Bool.not_eq_false', decide_eq_true_eq] at hh
        exact hh
      have hdm : '\x7d' ∈ post1 := by
        have hmem : d ∈ post1.reverse.dropWhile (fun c => !(c = '\x7d')) := by
          rw [heq2]
          exact List.mem_cons_self _ _
        have hrev := List.mem_reverse.mp (mem_of_mem_dropWhile hmem)
        rw [← hd]
        exact hrev
      obtain ⟨mid, post2, hpost1⟩ := List.append_of_mem hdm
      refine ⟨l.takeWhile (fun c => !(c = '\x7b')), mid, post2, ?_⟩
      conv_lhs => rw [← List.takeWhile_append_dropWhile (fun c => !(c = '\x7b')) l]
      rw [heq, hc0, hpost1]

/-- C10: the sanitizer maps the empty oracle response to the literal
`"{}"`, which the JSON decoder accepts as the empty object, so the
normalizer's parse step cannot fail on an empty (e.g. transport-failed)
response. -/
theorem c10_empty_response :
    clean_json_response "" = "\x7b\x7d" ∧ jloads "\x7b\x7d" = some (Json.obj []) :=
  ⟨rfl, rfl⟩

/-- C9 counterexample: the input consists of a fenced code block whose
content is `hello`, so by the claim the sanitizer should return `hello`;
the code only extracts fenced content that is brace-delimited, and with
no brace anywhere it returns the raw trimmed text, backticks included. -/
theorem c9_counterexample :
    clean_json_response "```hello```" = "```hello```" ∧
    clean_json_response "```hello```" ≠ "hello" := ⟨rfl, by decide⟩

/-- C9 amended: the sanitizer is total and returns, in priority order:
(1) the first complete brace-delimited payload wrapped by a fenced code
block (after an optional `json` tag and whitespace, the payload's closing
brace followed by whitespace and the closing fence) — a fence that merely
opens a brace without such a complete payload does not count; the fenced
example extracts to text that parses as JSON with
`mapping.Qty = "Quantity"`; (2) otherwise, when no fence wraps such a
payload but the input contains a `\x7b` later followed by a `\x7d`, the
substring from the first opening brace to the last closing brace;
(3) otherwise the raw trimmed text (for empty input, `"\x7b\x7d"`, see
C10). -/
theorem c9_amended :
    (clean_json_response "```json\n\x7b\"mapping\":\x7b\"Qty\":\"Quantity\"\x7d\x7d\n```"
        = "\x7b\"mapping\":\x7b\"Qty\":\"Quantity\"\x7d\x7d" ∧
      jloads "\x7b\"mapping\":\x7b\"Qty\":\"Quantity\"\x7d\x7d"
        = some (Json.obj [("mapping", Json.obj [("Qty", Json.str "Quantity")])])) ∧
    (∀ (s : String) (pre tag ws1 mid ws2 post : List Char),
      s.toList = pre ++ ('`' :: '`' :: '`' ::
        (tag ++ (ws1 ++ ('\x7b' :: (mid ++ ('\x7d' :: (ws2 ++ ('`' :: '`' :: '`' :: post)))))))) →
      '`' ∉ pre → (tag = [] ∨ tag = ['j', 's', 'o', 'n']) →
      (∀ c ∈ ws1, isWsC c = true) → (∀ c ∈ ws2, isWsC c = true) →
      '\x7d' ∉ mid →
      clean_json_response s = String.mk ('\x7b' :: (mid ++ ['\x7d']))) ∧
    (∀ s : String, searchFence s.toList = none → hasBracePair s.toList →
      ∃ pre mid post : List Char,
        s.toList = pre ++ ('\x7b' :: (mid ++ ('\x7d' :: post))) ∧
        '\x7b' ∉ pre ∧ '\x7d' ∉ post ∧
        clean_json_response s = String.mk ('\x7b' :: (mid ++ ['\x7d']))) ∧
    (∀ s : String, s ≠ "" → searchFence s.toList = none → ¬hasBracePair s.toList →
      clean_json_response s = pyStripStr s) := by
  refine ⟨⟨rfl, rfl⟩, fence_extract, ?_, ?_⟩
  · intro s hsf hbp
    have hne : s ≠ "" := by
      intro h
      obtain ⟨p, m, q, hd⟩ := hbp
      rw [h] at hd
      simp at hd
    obtain ⟨pre, mid, post, hdec, hpre, hpost⟩ := canonical_pair hbp
    refine ⟨pre, mid, post, hdec, hpre, hpost, ?_⟩
    unfold clean_json_response
    rw [if_neg hne, hsf, hdec, looseBraces_decomp pre mid post hpre hpost]
    simp only []
    rw [pyStrip_brace]
  · intro s hne hsf hnbp
    have hlb : looseBraces s.toList = none := by
      cases hlb : looseBraces s.toList with
      | none => rfl
      | some g => exact absurd (looseBraces_some_pair hlb) hnbp
    unfold clean_json_response
    rw [if_neg hne, hsf, hlb]
    rfl

/-- C9 witness: the amended rule 1 at a concrete fenced input with a
nonempty tagless fence, extracting just the brace-delimited payload. -/
theorem c9_witness : clean_json_response "``` \x7bok\x7d ```" = "\x7bok\x7d" :=
  (c9_amended.2.1 "``` \x7bok\x7d ```" [] [] [' '] ['o', 'k'] [' '] []
    rfl (by decide) (Or.inl rfl) (by decide) (by decide) (by decide)).trans rfl

theorem dictLookup_mem {schema : List String} {k v : String}
    (h : dictLookup (schema_map schema) k = some v) : v ∈ schema := by
  unfold dictLookup at h
  rw [Option.map_eq_some'] at h
  obtain ⟨kv, hfind, hv⟩ := h
  have hmem : kv ∈ (schema_map schema).reverse := List.mem_of_find?_eq_some hfind
  rw [List.mem_reverse] at hmem
  unfold schema_map at hmem
  rw [List.mem_map] at hmem
  obtain ⟨c, hc, heq⟩ := hmem
  rw [← hv, ← heq]
  exact hc

theorem detNorm_mem {columns schema : List String} {x : String}
    (h : x ∈ detNorm columns schema) : x ∈ schema := by
  unfold detNorm at h
  rw [List.mem_filterMap] at h
  obtain ⟨a, _, ha⟩ := h
  exact dictLookup_mem ha

theorem detUnknown_sub {columns schema : List String} {x : String}
    (h : x ∈ detUnknown columns schema) : x ∈ columns := by
  unfold detUnknown at h
  exact (List.mem_filter.mp h).1

theorem detLen (columns schema : List String) :
    (detNorm columns schema).length + (detUnknown columns schema).length
      = columns.length := by
  induction columns with
  | nil => rfl
  | cons c t ih =>
    unfold detNorm detUnknown at ih ⊢
    rw [List.filterMap_cons, List.filter_cons]
    cases h : dictLookup (schema_map schema) (pyLower c) with
    | none => simp [h]; omega
    | some v => simp [h]; omega

theorem resolveUnknown_cases (kvs : List (String × Json)) (schema : List String) (u : String) :
    resolveUnknown kvs schema u ∈ schema ∨ resolveUnknown kvs schema u = u := by
  unfold resolveUnknown
  split
  · split
    · split
      · split
        · rename_i hs
          exact Or.inl hs
        · exact Or.inr rfl
      · exact Or.inr rfl
    · exact Or.inr rfl
  · exact Or.inr rfl

theorem forall2_map_self {R : String → String → Prop} (f : String → String) (l : List String)
    (h : ∀ a ∈ l, R (f a) a) : List.Forall₂ R (l.map f) l := by
  induction l with
  | nil => exact List.Forall₂.nil
  | cons a t ih =>
    exact List.Forall₂.cons (h a (List.mem_cons_self a t))
      (ih (fun x hx => h x (List.mem_cons_of_mem a hx)))

theorem forall2_refl_mem {R : String → String → Prop} (l : List String)
    (h : ∀ a ∈ l, R a a) : List.Forall₂ R l l := by
  induction l with
  | nil => exact List.Forall₂.nil
  | cons a t ih =>
    exact List.Forall₂.cons (h a (List.mem_cons_self a t))
      (ih (fun x hx => h x (List.mem_cons_of_mem a hx)))

theorem forall2_mem_left {R : String → String → Prop} :
    ∀ {l1 l2 : List String}, List.Forall₂ R l1 l2 → ∀ {x}, x ∈ l1 → ∃ y ∈ l2, R x y := by
  intro l1 l2 h
  induction h with
  | nil => intro x hx; simp at hx
  | cons hR htail ih =>
    intro x hx
    rcases List.mem_cons.mp hx with rfl | hx2
    · exact ⟨_, List.mem_cons_self _ _, hR⟩
    · obtain ⟨y, hy, hRy⟩ := ih hx2
      exact ⟨y, List.mem_cons_of_mem _ hy, hRy⟩

theorem map_resolve_nil (l schema : List String) :
    l.map (resolveUnknown [] schema) = l := by
  induction l with
  | nil => rfl
  | cons a t ih =>
    rw [List.map_cons, ih]
    rfl

/-- Case split on `normalize_columns`: the output is always the
deterministic pass followed either by the untouched unknowns (failure or
empty-input branches) or by the mapping loop's resolutions. -/
theorem oraclePhase_cases (j : Option Json) (unknowns schema : List String) :
    oraclePhase j unknowns schema = unknowns ∨
    ∃ kvs, oraclePhase j unknowns schema = unknowns.map (resolveUnknown kvs schema) := by
  cases j with
  | none => exact Or.inl rfl
  | some jj =>
    cases jj with
    | obj top =>
      simp only [oraclePhase]
      cases hm : (objGetLast top "mapping").getD (Json.obj []) with
      | obj kvs => exact Or.inr ⟨kvs, rfl⟩
      | null => exact Or.inl rfl
      | bool b => exact Or.inl rfl
      | num n => exact Or.inl rfl
      | str s => exact Or.inl rfl
      | arr xs => exact Or.inl rfl
    | null => exact Or.inl rfl
    | bool b => exact Or.inl rfl
    | num n => exact Or.inl rfl
    | str s => exact Or.inl rfl
    | arr xs => exact Or.inl rfl

theorem nc_cases (oracle : String → Except String String) (columns schema : List String) :
    normalize_columns oracle columns schema
        = detNorm columns schema ++ detUnknown columns schema ∨
    ∃ kvs, normalize_columns oracle columns schema
        = detNorm columns schema ++ (detUnknown columns schema).map (resolveUnknown kvs schema) := by
  simp only [normalize_columns]
  cases columns with
  | nil => exact Or.inl rfl
  | cons c0 ct =>
    rw [if_neg (by simp)]
    by_cases hu : detUnknown (c0 :: ct) schema = []
    · rw [hu, if_pos (show List.isEmpty ([] : List String) = true from rfl)]
      exact Or.inl (List.append_nil _).symm
    · rw [if_neg (fun hE => hu (by simpa using hE))]
      rcases oraclePhase_cases (jloads (clean_json_response
          (call_ollama_sync oracle (normPrompt (detUnknown (c0 :: ct) schema) schema))))
          (detUnknown (c0 :: ct) schema) schema with h | ⟨kvs, h⟩
      · exact Or.inl (by rw [h])
      · exact Or.inr ⟨kvs, by rw [h]⟩

/-- C1 counterexample: with input labels `["Foo", "qty"]` and schema
`["Qty"]` (oracle transport-failed), the output is `["Qty", "Foo"]`: the
second output element is neither a schema member nor the second input
label, because the unresolved first label was moved behind the resolved
second one — relative input order is not preserved. -/
theorem c1_counterexample :
    normalize_columns (fun _ => .error "connection refused") ["Foo", "qty"] ["Qty"]
        = ["Qty", "Foo"] ∧
    ¬("Foo" ∈ (["Qty"] : List String)) ∧ ("Foo" : String) ≠ "qty" :=
  ⟨rfl, by decide, by decide⟩

/-- C1 amended: the output has the input's length and every element is a
schema member or one of the original input labels; but instead of input
order, the deterministically resolved labels come first (in input order),
followed by the remaining labels' oracle-phase results (in input order),
each of which is a schema member or that original label unchanged. -/
theorem c1_amended_normalize_columns (oracle : String → Except String String)
    (columns schema : List String) :
    (normalize_columns oracle columns schema).length = columns.length ∧
    (∀ x ∈ normalize_columns oracle columns schema, x ∈ schema ∨ x ∈ columns) ∧
    ∃ rest, normalize_columns oracle columns schema = detNorm columns schema ++ rest ∧
      List.Forall₂ (fun r u => r ∈ schema ∨ r = u) rest (detUnknown columns schema) := by
  have hsplit : ∃ rest,
      normalize_columns oracle columns schema = detNorm columns schema ++ rest ∧
      List.Forall₂ (fun r u => r ∈ schema ∨ r = u) rest (detUnknown columns schema) := by
    rcases nc_cases oracle columns schema with h | ⟨kvs, h⟩
    · exact ⟨detUnknown columns schema, h, forall2_refl_mem _ (fun a _ => Or.inr rfl)⟩
    · exact ⟨_, h, forall2_map_self _ _ (fun a _ => resolveUnknown_cases kvs schema a)⟩
  obtain ⟨rest, heq, hf⟩ := hsplit
  refine ⟨?_, ?_, rest, heq, hf⟩
  · rw [heq, List.length_append, hf.length_eq, detLen]
  · intro x hx
    rw [heq, List.mem_append] at hx
    rcases hx with hx | hx
    · exact Or.inl (detNorm_mem hx)
    · obtain ⟨y, hy, hR⟩ := forall2_mem_left hf hx
      rcases hR with hR | rfl
      · exact Or.inl hR
      · exact Or.inr (detUnknown_sub hy)

/-- C1 witness: the amended statement applied at a concrete call. -/
theorem c1_witness :
    (normalize_columns (fun _ => .ok "\x7b\"mapping\":\x7b\"Foo\":\"Qty\"\x7d\x7d")
      ["Foo", "qty"] ["Qty"]).length = 2 :=
  (c1_amended_normalize_columns
    (fun _ => .ok "\x7b\"mapping\":\x7b\"Foo\":\"Qty\"\x7d\x7d") ["Foo", "qty"] ["Qty"]).1

/-- C7: on any oracle transport failure (modelled `.error`, which
`_call_ollama_sync` converts to the empty response) and on any reply
whose sanitized text fails to parse as JSON, every label the
deterministic pass left unresolved passes through unchanged (after the
resolved ones); the embedding is a total function, so no exception
escapes. -/
theorem c7_fail_open (oracle : String → Except String String) (columns schema : List String)
    (h : (∃ e, oracle (normPrompt (detUnknown columns schema) schema) = .error e) ∨
      jloads (clean_json_response
        (call_ollama_sync oracle (normPrompt (detUnknown columns schema) schema))) = none) :
    normalize_columns oracle columns schema
      = detNorm columns schema ++ detUnknown columns schema := by
  simp only [normalize_columns]
  cases columns with
  | nil => rfl
  | cons c0 ct =>
    rw [if_neg (by simp)]
    by_cases hu : detUnknown (c0 :: ct) schema = []
    · rw [hu, if_pos (show List.isEmpty ([] : List String) = true from rfl),
        List.append_nil]
    · rw [if_neg (fun hE => hu (by simpa using hE))]
      rcases h with ⟨e, he⟩ | hj
      · have hresp : call_ollama_sync oracle
            (normPrompt (detUnknown (c0 :: ct) schema) schema) = "" := by
          unfold call_ollama_sync
          rw [he]
        rw [hresp]
        show detNorm (c0 :: ct) schema
            ++ (detUnknown (c0 :: ct) schema).map (resolveUnknown [] schema)
          = detNorm (c0 :: ct) schema ++ detUnknown (c0 :: ct) schema
        rw [map_resolve_nil]
      · rw [hj]
        rfl

/-- C7 witness: a transport error at a concrete call. -/
theorem c7_witness :
    normalize_columns (fun _ => .error "timeout") ["Qty", "Weird"] ["Qty"]
      = ["Qty", "Weird"] :=
  (c7_fail_open (fun _ => .error "timeout") ["Qty", "Weird"] ["Qty"]
    (Or.inl ⟨"timeout", rfl⟩)).trans rfl

theorem containsSub_of_isPrefixOf {h n : List Char} (hp : n.isPrefixOf h = true) :
    containsSub h n = true := by
  cases h with
  | nil =>
    cases n with
    | nil => rfl
    | cons a as => simp [List.isPrefixOf] at hp
  | cons c t => simp [containsSub, hp]

theorem isPrefixOf_append_of {n x : List Char} (y : List Char)
    (hp : n.isPrefixOf x = true) : n.isPrefixOf (x ++ y) = true := by
  rw [List.isPrefixOf_iff_prefix] at hp ⊢
  exact hp.trans (List.prefix_append x y)

/-- The `"Error connecting"` guard of line 201 fires on every string the
`except` branch of `_call_ollama_text` can produce. -/
theorem strIn_marker (e : String) :
    strIn "Error connecting" ("Error connecting to AI: " ++ e) = true := by
  unfold strIn
  have hdata : ("Error connecting to AI: " ++ e).toList
      = "Error connecting to AI: ".toList ++ e.toList := by
    simp [String.toList, String.data_append]
  rw [hdata]
  exact containsSub_of_isPrefixOf (isPrefixOf_append_of _ (by decide))

/-- C2 counterexample: intent "multiply x" contains the multiply keyword
and matches fewer than two schema columns of `["A", "B"]`, yet the
pipeline does not stop: the rule-based part falls through to the LLM
fallback (line 185, i.e. an oracle call IS attempted), and with an oracle
that answers `=A2*B2` the function returns that formula rather than none. -/
theorem c2_counterexample :
    ruleBased "multiply x" ["A", "B"] = RuleOut.fallthrough ∧
    generate_formula_from_intent (fun _ => .ok "=A2*B2") "multiply x" ["A", "B"] "D1"
      = .ok (some "=A2*B2") := ⟨rfl, rfl⟩

/-- C2 amended: with a multiply or divide keyword and fewer than two
matching schema columns, the deterministic part yields no formula and
falls through to the generic synthesizer check (which cannot fire, as the
binary branches set no operator) and then to the LLM fallback, which IS
attempted for such an intent. -/
theorem c2_amended_binary_fallthrough (intent : String) (schema : List String)
    (hop : detectOp (pyStripStr (pyLower intent)) = some Detected.mul ∨
      detectOp (pyStripStr (pyLower intent)) = some Detected.div)
    (hlen : (binaryCols (pyStripStr (pyLower intent)) schema).length < 2) :
    ruleBased intent schema = RuleOut.fallthrough := by
  simp only [ruleBased]
  rcases hop with hop | hop <;> rw [hop] <;>
    (cases hb : binaryCols (pyStripStr (pyLower intent)) schema with
    | nil => rfl
    | cons c1 rest =>
      cases rest with
      | nil => rfl
      | cons c2 r2 =>
        rw [hb] at hlen
        simp only [List.length_cons] at hlen
        omega)

/-- C2 witness: the amended statement at the counterexample's input. -/
theorem c2_witness : ruleBased "multiply x" ["A", "B"] = RuleOut.fallthrough :=
  c2_amended_binary_fallthrough "multiply x" ["A", "B"] (Or.inl (by decide)) (by decide)

/-- C3 (code bug): on the spec's own test vector — intent
"Multiply Quantity by Unit Price", schema `["Quantity", "UnitPrice"]` —
the multiply branch finds only `Quantity` (the lowercased name
`unitprice` is not a substring of the spaced intent), so the rule-based
part falls through to the oracle instead of returning
`=Quantity2*UnitPrice2` deterministically; with the oracle failing, no
formula is produced at all.  The code's own comment on line 165 names
exactly this intent as the example the branch is meant to handle. -/
theorem c3_failing_eval :
    ruleBased "Multiply Quantity by Unit Price" ["Quantity", "UnitPrice"]
        = RuleOut.fallthrough ∧
    binaryCols (pyStripStr (pyLower "Multiply Quantity by Unit Price"))
        ["Quantity", "UnitPrice"] = ["Quantity"] ∧
    generate_formula_from_intent (fun _ => .error "down")
        "Multiply Quantity by Unit Price" ["Quantity", "UnitPrice"] "C2" = .ok none :=
  ⟨rfl, rfl, rfl⟩

/-- C4: whenever the keyword chain resolves an aggregate operator and the
layered column resolution yields a truthy (non-empty, per the line-175
`if function_name and column_match:` gate) match that is a schema member
(at index `i < 26`, where "the single uppercase letter at the column's
zero-based schema index" is defined), the synthesized formula is exactly
`=F(L2:L100)` with `L = chr(65 + i)`, an uppercase letter; the row window
is the fixed constant 2..100, independent of any table (no table is
consulted). -/
theorem c4_aggregate_formula (intent : String) (schema : List String) (F cm : String) (i : Nat)
    (hop : detectOp (pyStripStr (pyLower intent)) = some (Detected.agg F))
    (hcm : column_match intent (pyStripStr (pyLower intent)) schema = some cm)
    (hne : cm ≠ "")
    (hidx : pyIndex schema cm = some i)
    (hlt : i < 26) :
    ruleBased intent schema
        = RuleOut.formula ("=" ++ F ++ "(" ++ colLetter i ++ "2:" ++ colLetter i ++ "100)") ∧
    (Char.ofNat (65 + i)).isUpper = true := by
  constructor
  · simp only [ruleBased]
    rw [hop, hcm]
    simp only [aggSynth]
    rw [if_neg hne, hidx]
    rfl
  · interval_cases i <;> decide

/-- The truthiness gate in action: with schema `[""]` the empty string
matches every intent in passes 1 and 2, but the line-175 gate treats it
as falsy, so the pipeline falls through to the LLM fallback instead of
emitting `=SUM(A2:A100)`. -/
theorem aggSynth_empty_gate :
    column_match "sum of x" (pyStripStr (pyLower "sum of x")) [""] = some "" ∧
    ruleBased "sum of x" [""] = RuleOut.fallthrough := ⟨rfl, rfl⟩

/-- C4 witness: the spec's example — "average of UnitPrice" over
`["OrderID", "UnitPrice", "Qty"]` gives `=AVERAGE(B2:B100)`. -/
theorem c4_witness :
    ruleBased "average of UnitPrice" ["OrderID", "UnitPrice", "Qty"]
      = RuleOut.formula "=AVERAGE(B2:B100)" :=
  (c4_aggregate_formula "average of UnitPrice" ["OrderID", "UnitPrice", "Qty"]
    "AVERAGE" "UnitPrice" 1 (by decide) (by decide) (by decide) (by decide) (by decide)).1

/-- C8 counterexample: a transport error is converted to the string
`"Error connecting to AI: <error>"`, not to an empty string as the claim
states. -/
theorem c8_counterexample :
    call_ollama_text (fun _ => .error "timeout") "p" = "Error connecting to AI: timeout" ∧
    call_ollama_text (fun _ => .error "timeout") "p" ≠ "" := ⟨rfl, by decide⟩

/-- C8 amended: every transport error of the plain-text oracle call is
converted into the marker string `"Error connecting to AI: " ++ e`
(never propagated; the embedding is total), and the fallback detects the
`"Error connecting"` marker before any extraction and produces no
formula. -/
theorem c8_amended (oracle : String → Except String String)
    (intent : String) (schema : List String) (cell : String) (e : String)
    (h : oracle (fallbackPrompt intent schema cell) = .error e) :
    call_ollama_text oracle (fallbackPrompt intent schema cell)
        = "Error connecting to AI: " ++ e ∧
    llmFallback oracle intent schema cell = .ok none := by
  have hresp : call_ollama_text oracle (fallbackPrompt intent schema cell)
      = "Error connecting to AI: " ++ e := by
    unfold call_ollama_text
    rw [h]
  refine ⟨hresp, ?_⟩
  simp only [llmFallback]
  rw [hresp, strIn_marker]
  simp

/-- C8 witness: a concrete transport failure. -/
theorem c8_witness : llmFallback (fun _ => .error "boom") "odd intent" ["A"] "A1" = .ok none :=
  (c8_amended (fun _ => .error "boom") "odd intent" ["A"] "A1" "boom" rfl).2

theorem digit_not_upper {c : Char} (h : isDigitC c = true) : isUpperAZ c = false := by
  unfold isDigitC at h
  unfold isUpperAZ
  simp only [Bool.and_eq_true, decide_eq_true_eq] at h
  have h9 : ¬('A' ≤ c) := fun hA => absurd (le_trans hA h.2) (by decide)
  simp [h9]

theorem spanP_exact {p : Char → Bool} {xs : List Char} (ys : List Char)
    (hx : ∀ x ∈ xs, p x = true) (hy : ∀ c, ys.head? = some c → p c = false) :
    spanP p (xs ++ ys) = (xs, ys) := by
  induction xs with
  | nil =>
    cases ys with
    | nil => rfl
    | cons y t =>
      simp only [List.nil_append, spanP]
      rw [hy y rfl]
      simp
  | cons x xt ih =>
    simp only [List.cons_append, spanP]
    rw [hx x (List.mem_cons_self x xt)]
    simp only [if_true, List.append_eq]
    rw [ih (fun a ha => hx a (List.mem_cons_of_mem x ha))]

theorem head_cons_false {p : Char → Bool} (a : Char) (t : List Char) (ha : p a = false) :
    ∀ c, ((a :: t) : List Char).head? = some c → p c = false := by
  intro c hc
  rw [List.head?_cons] at hc
  injection hc with h
  exact h ▸ ha

theorem head_app_false {p : Char → Bool} (a : Char) (t z : List Char) (ha : p a = false) :
    ∀ c, (((a :: t) ++ z) : List Char).head? = some c → p c = false := by
  intro c hc
  rw [List.cons_append, List.head?_cons] at hc
  injection hc with h
  exact h ▸ ha

/-- The line-153 regex recovers the five groups from any formula built
out of an uppercase function name, uppercase letter groups and digit
groups (round trip of the parser on well-shaped formulas). -/
theorem parseAgg_mk (fu L1 d1 L2 d2 rest : List Char)
    (hfu : fu ≠ []) (hfuU : ∀ x ∈ fu, isUpperAZ x = true)
    (hL1 : L1 ≠ []) (hL1U : ∀ x ∈ L1, isUpperAZ x = true)
    (hd1 : d1 ≠ []) (hd1D : ∀ x ∈ d1, isDigitC x = true)
    (hL2 : L2 ≠ []) (hL2U : ∀ x ∈ L2, isUpperAZ x = true)
    (hd2 : d2 ≠ []) (hd2D : ∀ x ∈ d2, isDigitC x = true) :
    parseAgg ('=' :: (fu ++ ('(' :: (L1 ++ (d1 ++ (':' :: (L2 ++ (d2 ++ (')' :: rest)))))))))
      = some ⟨fu, L1, d1, L2, d2⟩ := by
  obtain ⟨f0, ft, rfl⟩ := List.exists_cons_of_ne_nil hfu
  obtain ⟨a1, at1, rfl⟩ := List.exists_cons_of_ne_nil hL1
  obtain ⟨b1, bt1, rfl⟩ := List.exists_cons_of_ne_nil hd1
  obtain ⟨a2, at2, rfl⟩ := List.exists_cons_of_ne_nil hL2
  obtain ⟨b2, bt2, rfl⟩ := List.exists_cons_of_ne_nil hd2
  simp only [parseAgg]
  rw [spanP_exact _ hfuU (head_cons_false '(' _ rfl)]
  simp only [pA1]
  rw [spanP_exact _ hL1U
    (head_app_false b1 _ _ (digit_not_upper (hd1D b1 (List.mem_cons_self _ _))))]
  simp only [pA2]
  rw [spanP_exact _ hd1D (head_cons_false ':' _ rfl)]
  simp only [pA3]
  rw [spanP_exact _ hL2U
    (head_app_false b2 _ _ (digit_not_upper (hd2D b2 (List.mem_cons_self _ _))))]
  simp only [pA4]
  rw [spanP_exact _ hd2D (head_cons_false ')' _ rfl)]
  simp only [pA5]

/-- C5: for every formula `=FU(cN:cM)` with `FU` one of the five known
reductions, `c` an uppercase letter mapping to an in-range column index,
and arbitrary digit groups `N`, `M`, the preview applies the reduction to
the ENTIRE column `df[ord(c)-65]` — the row window digits do not occur on
the right-hand side at all. -/
theorem c5_simulator_whole_column (fu : String) (c : Char) (d1 d2 : List Char) (df : Table)
    (hfu : fu ∈ (["AVERAGE", "SUM", "COUNT", "MAX", "MIN"] : List String))
    (hc : isUpperAZ c = true)
    (hd1 : d1 ≠ []) (hd1D : ∀ x ∈ d1, isDigitC x = true)
    (hd2 : d2 ≠ []) (hd2D : ∀ x ∈ d2, isDigitC x = true)
    (hlt : c.toNat - 65 < df.length) :
    calcPreview
      (String.mk ('=' :: (fu.toList ++ ('(' :: ([c] ++ (d1 ++ (':' :: ([c] ++ (d2 ++ (')' :: []))))))))))
      df
      = (applyFunc fu (df.getD (c.toNat - 65) [])).map fmt := by
  have hfuP : fu.toList ≠ [] ∧ ∀ x ∈ fu.toList, isUpperAZ x = true := by
    fin_cases hfu <;> exact ⟨by decide, by decide⟩
  have hL : ([c] : List Char) ≠ [] := by simp
  have hLU : ∀ x ∈ ([c] : List Char), isUpperAZ x = true := by
    intro x hx
    rw [List.mem_singleton] at hx
    exact hx ▸ hc
  have hp := parseAgg_mk fu.toList [c] d1 [c] d2 []
    hfuP.1 hfuP.2 hL hLU hd1 hd1D hL hLU hd2 hd2D
  simp only [calcPreview]
  rw [show (String.mk ('=' :: (fu.toList ++ ('(' :: ([c] ++ (d1 ++ (':' :: ([c] ++ (d2 ++ (')' :: [])))))))))).toList
      = ('=' :: (fu.toList ++ ('(' :: ([c] ++ (d1 ++ (':' :: ([c] ++ (d2 ++ (')' :: []))))))))) from rfl]
  rw [hp]
  show calcAgg fu.toList [c] df = (applyFunc fu (df.getD (c.toNat - 65) [])).map fmt
  simp only [calcAgg, calcLetter]
  rw [if_pos hlt, show String.mk fu.toList = fu from rfl]
  cases happ : applyFunc fu (df.getD (c.toNat - 65) []) with
  | none => rfl
  | some r => rfl

set_option maxRecDepth 8000 in
/-- C5 witness: `=SUM(C2:C100)` over a table whose third column has 120
rows of `1` sums the whole column (120), not the encoded window 2..100. -/
theorem c5_witness :
    calcPreview "=SUM(C2:C100)" [[], [], List.replicate 120 (some 1)] = some "120" := by
  have h := c5_simulator_whole_column "SUM" 'C' ['2'] ['1', '0', '0']
    [[], [], List.replicate 120 (some 1)]
    (by decide) (by decide) (by decide) (by decide) (by decide) (by decide) (by decide)
  exact h.trans rfl

theorem applyFunc_none_iff (f : String) (col : List (Option Int)) :
    applyFunc f col = none ↔
      f ∉ (["AVERAGE", "SUM", "COUNT", "MAX", "MIN"] : List String) := by
  unfold applyFunc
  split_ifs with h1 h2 h3 h4 h5
  · exact iff_of_false (by simp) (fun hno => hno (by rw [h1]; decide))
  · exact iff_of_false (by simp) (fun hno => hno (by rw [h2]; decide))
  · exact iff_of_false (by simp) (fun hno => hno (by rw [h3]; decide))
  · exact iff_of_false (by simp) (fun hno => hno (by rw [h4]; decide))
  · exact iff_of_false (by simp) (fun hno => hno (by rw [h5]; decide))
  · refine iff_of_true rfl ?_
    intro hmem
    simp only [List.mem_cons, List.mem_singleton, List.not_mem_nil, or_false] at hmem
    rcases hmem with h | h | h | h | h
    · exact h1 h
    · exact h2 h
    · exact h3 h
    · exact h4 h
    · exact h5 h

/-- C6 counterexample: inserting the formula `=QUX(A2:A9)` succeeds (any
string can be written into a cell), the aggregate pattern matches and the
column index is in range, but the function name is unknown, so
`result = None` and the preview is absent (`calculated_value: None`) —
contradicting "never absent". -/
theorem c6_counterexample : calcPreview "=QUX(A2:A9)" [[some 1]] = none := rfl

/-- C6 amended: the preview is absent EXACTLY when (a) the formula does
not match the aggregate pattern and contains neither `*` nor `/`, or
(b) it matches with a single-letter column group whose index is out of
range, or whose function name is not one of the five known reductions.
In every other case some value is returned: a formatted result, the
fixed placeholder for `*`/`/` formulas, or an `"Error: ..."` string for a
multi-letter column group. -/
theorem c6_amended (formula : String) (df : Table) :
    calcPreview formula df = none ↔
      (parseAgg formula.toList = none ∧ strIn "*" formula = false ∧
        strIn "/" formula = false) ∨
      (∃ m, parseAgg formula.toList = some m ∧ ∃ c, m.letter1 = [c] ∧
        (df.length ≤ c.toNat - 65 ∨
          (c.toNat - 65 < df.length ∧
            String.mk m.func ∉ (["AVERAGE", "SUM", "COUNT", "MAX", "MIN"] : List String)))) := by
  simp only [calcPreview]
  cases hp : parseAgg formula.toList with
  | none =>
    constructor
    · intro hnone
      by_cases hb : (strIn "*" formula || strIn "/" formula) = true
      · rw [if_pos hb] at hnone
        exact absurd hnone (by simp)
      · have hb' : (strIn "*" formula || strIn "/" formula) = false := by
          rwa [Bool.not_eq_true] at hb
        exact Or.inl ⟨rfl, (Bool.or_eq_false_iff.mp hb').1, (Bool.or_eq_false_iff.mp hb').2⟩
    · intro h
      rcases h with ⟨_, hs, hd⟩ | ⟨m, hm, _⟩
      · rw [if_neg (by rw [hs, hd]; simp)]
      · exact absurd hm (by simp)
  | some m0 =>
    show calcAgg m0.func m0.letter1 df = none ↔ _
    constructor
    · intro hnone
      right
      refine ⟨m0, rfl, ?_⟩
      cases hL : m0.letter1 with
      | nil =>
        rw [hL] at hnone
        simp [calcAgg] at hnone
      | cons c1 t =>
        cases t with
        | nil =>
          rw [hL] at hnone
          simp only [calcAgg, calcLetter] at hnone
          refine ⟨c1, rfl, ?_⟩
          by_cases hlt : c1.toNat - 65 < df.length
          · rw [if_pos hlt] at hnone
            cases happ : applyFunc (String.mk m0.func) (df.getD (c1.toNat - 65) []) with
            | some r => rw [happ] at hnone; exact absurd hnone (by simp)
            | none => exact Or.inr ⟨hlt, (applyFunc_none_iff _ _).mp happ⟩
          · exact Or.inl (Nat.le_of_not_lt hlt)
        | cons c2 t2 =>
          rw [hL] at hnone
          simp [calcAgg] at hnone
    · intro h
      rcases h with ⟨hfalse, _, _⟩ | ⟨m, hm, c, hLc, hcases⟩
      · exact absurd hfalse (by simp)
      · injection hm with hm0
        subst hm0
        rw [hLc]
        simp only [calcAgg, calcLetter]
        rcases hcases with hle | ⟨hlt, hnotin⟩
        · rw [if_neg (Nat.not_lt.mpr hle)]
        · rw [if_pos hlt, (applyFunc_none_iff _ _).mpr hnotin]

/-- C6 witness: the amended statement instantiated at an out-of-range
column letter. -/
theorem c6_witness : calcPreview "=SUM(Z9:Z9)" [[some 1]] = none :=
  (c6_amended "=SUM(Z9:Z9)" [[some 1]]).mpr
    (Or.inr ⟨⟨['S', 'U', 'M'], ['Z'], ['9'], ['Z'], ['9']⟩, rfl, 'Z', rfl,
      Or.inl (by decide)⟩)
